import Mathlib

/-!
Verification of the malware-analysis core of the Cybershield backend
(`backend/app/services/ml_service.py`, configuration from
`backend/app/config.py`, record shapes from `backend/app/models/scan.py`).

Shallow-embedding conventions:
* numpy `uint8` byte values are `Fin 256`; byte buffers are `List (Fin 256)`.
* Python floats are modelled as exact rationals `ℚ`.  `np.log2` is kept as an
  explicit function parameter `log2 : ℚ → ℚ` of the feature extractor, since
  the binary logarithm is not rational-valued; theorems that depend on a
  property of the logarithm (only `log2 1 = 0` is ever needed) take it as a
  hypothesis.
* A float division by a zero length (numpy emits a NaN and a RuntimeWarning,
  it does not raise) is modelled by rational division, whose value at a zero
  denominator is 0; a Python `ZeroDivisionError` (plain-int division) is
  modelled by the exception branch it triggers.
* Operations that can raise an uncaught Python exception are embedded as
  `Except String`; the `try/except` blocks of the source become `match` on
  that value.
* `np.argsort` is modelled as the stable ascending argsort (value ascending,
  index ascending on ties).
* The trained-model paths (`StandardScaler.transform`, the torch network,
  `IsolationForest.decision_function`) load weights from an artifact that is
  not part of the repository; they are modelled as opaque fallible functions
  stored in the service state, which is all the analysed properties need.
-/

set_option maxRecDepth 100000

namespace Cybershield

/-- A byte value, as stored in the `np.uint8` array built from the file. -/
abbrev Byte := Fin 256

/-- `settings.FEATURE_SIZE` from `backend/app/config.py`. -/
def FEATURE_SIZE : ℕ := 1000

/-- Byte-frequency segment: `np.bincount(byte_array, minlength=256) / len(byte_array)`
(`extract_features`, lines 118-120).  For empty input the 0/0 division is the
NaN produced by numpy, modelled as the rational 0. -/
def byteFreq (data : List Byte) : List ℚ :=
  (List.finRange 256).map (fun b => (data.count b : ℚ) / (data.length : ℚ))

/-- `_calculate_entropy` (lines 161-170): Shannon entropy over the non-zero
byte-count buckets, in ascending byte order.  `np.log2` is the parameter
`log2`. -/
def entropyOf (log2 : ℚ → ℚ) (data : List Byte) : ℚ :=
  if data.length = 0 then 0
  else
    let pos := ((List.finRange 256).map (fun b => (data.count b : ℕ))).filter (fun c => 0 < c)
    let probs := pos.map (fun (c : ℕ) => (c : ℚ) / (data.length : ℚ))
    let negsum : ℚ := -((probs.map (fun p => p * log2 p)).sum)
    negsum

/-- The sliding n-gram windows
`[byte_array[i:i+n].tobytes() for i in range(len(byte_array)-n+1)]` (line 124).
`data.length + 1 - n` is the ℕ-correct form of `len - n + 1` (an empty range
when the data is shorter than the window). -/
def windows (n : ℕ) (data : List Byte) : List (List Byte) :=
  (List.range (data.length + 1 - n)).map (fun i => (data.drop i).take n)

/-- One step of the dict accumulation `ngram_freq[ng] = ngram_freq.get(ng, 0) + 1`
(lines 125-127): increment the entry if the key is present, else append a new
entry at the end (Python dicts keep insertion order). -/
def bumpCount (ng : List Byte) : List (List Byte × ℕ) → List (List Byte × ℕ)
  | [] => [(ng, 1)]
  | (k, c) :: rest => if k = ng then (k, c + 1) :: rest else (k, c) :: bumpCount ng rest

/-- The n-gram counting dict of lines 125-127, as an association list in key
insertion (= first occurrence) order. -/
def ngramCounts (ws : List (List Byte)) : List (List Byte × ℕ) :=
  ws.foldl (fun acc ng => bumpCount ng acc) []

/-- Insertion step of the stable descending-by-count sort: the new element goes
in front of the first element whose count is ≤ its own, so that among equal
counts earlier elements stay first. -/
def insertByCountDesc (x : List Byte × ℕ) : List (List Byte × ℕ) → List (List Byte × ℕ)
  | [] => [x]
  | y :: ys => if y.2 ≤ x.2 then x :: y :: ys else y :: insertByCountDesc x ys

/-- `sorted(ngram_freq.items(), key=lambda x: x[1], reverse=True)` (line 130):
Python's `sorted` is stable, also with `reverse=True`, so this is the stable
descending sort by count. -/
def sortByCountDesc : List (List Byte × ℕ) → List (List Byte × ℕ)
  | [] => []
  | x :: xs => insertByCountDesc x (sortByCountDesc xs)

/-- The n-gram segment of `extract_features` (lines 122-137): top-200 counts of
the stable descending sort, zero-padded to exactly 200 entries. -/
def ngramSegment (n : ℕ) (data : List Byte) : List ℚ :=
  let sorted := sortByCountDesc (ngramCounts (windows n data))
  let counts := (sorted.take 200).map (fun p => (p.2 : ℚ))
  counts ++ List.replicate (200 - counts.length) 0

/-- ASCII bytes of a literal, for the byte-string constants of
`_extract_section_features`. -/
def asciiBytes (s : String) : List Byte :=
  s.toList.map (fun c => (⟨c.toNat % 256, Nat.mod_lt _ (by norm_num)⟩ : Byte))

/-- `pe_signatures = [b'MZ', b'PE\x00\x00']` (line 178); the second constant
contains two real NUL bytes. -/
def pe_signatures : List (List Byte) := [asciiBytes "MZ", [80, 69, 0, 0]]

/-- `suspicious_apis` (lines 183-187), eight byte strings. -/
def suspicious_apis : List (List Byte) :=
  [asciiBytes "CreateProcess", asciiBytes "VirtualAlloc", asciiBytes "WriteProcessMemory",
   asciiBytes "CreateRemoteThread", asciiBytes "LoadLibrary", asciiBytes "GetProcAddress",
   asciiBytes "WinExec", asciiBytes "ShellExecute"]

/-- `suspicious_strings` (lines 197-201), eight byte strings; the fourth is the
four ASCII characters backslash, x, 0, 0 (the source writes `b'\\x00'`). -/
def suspicious_strings : List (List Byte) :=
  [asciiBytes "http://", asciiBytes "https://", asciiBytes "ftp://",
   asciiBytes "\\x00", asciiBytes "cmd.exe", asciiBytes "powershell",
   asciiBytes "base64", asciiBytes "shellcode"]

/-- `_extract_section_features` (lines 172-219).  The `in` membership tests are
modelled as contiguous-substring presence.  For empty input the
`printable_bytes / len(byte_array)` plain-int division raises
`ZeroDivisionError`, which the function's own `except` turns into
`[0.0, 0.0, 0.0, 0.0]`; that is the `data.length = 0` branch. -/
def sectionFeatures (data : List Byte) : List ℚ :=
  if data.length = 0 then [0, 0, 0, 0]
  else
    let has_pe := pe_signatures.any (fun sig => decide (sig <:+: data.take 1000))
    let api_count := (suspicious_apis.filter (fun a => decide (a <:+: data))).length
    let string_count := (suspicious_strings.filter (fun s => decide (s <:+: data))).length
    let printable := (data.filter (fun b => decide (32 ≤ b.val ∧ b.val ≤ 126))).length
    [if has_pe then 1 else 0,
     (api_count : ℚ) / (suspicious_apis.length : ℚ),
     (string_count : ℚ) / (suspicious_strings.length : ℚ),
     1 - (printable : ℚ) / (data.length : ℚ)]

/-- The concatenated raw feature list of `extract_features` (lines 115-145):
256 byte frequencies, 200 bigram counts, 200 trigram counts, the entropy
scalar, 4 section features — 661 entries. -/
def rawFeatures (log2 : ℚ → ℚ) (data : List Byte) : List ℚ :=
  byteFreq data ++ ngramSegment 2 data ++ ngramSegment 3 data
    ++ [entropyOf log2 data] ++ sectionFeatures data

/-- The pad/truncate step of `extract_features` (lines 147-155), producing the
final feature vector from the byte content of the file. -/
def extract_features (log2 : ℚ → ℚ) (data : List Byte) : List ℚ :=
  let features := rawFeatures log2 data
  if FEATURE_SIZE < features.length then features.take FEATURE_SIZE
  else if features.length < FEATURE_SIZE then
    features ++ List.replicate (FEATURE_SIZE - features.length) 0
  else features

/-- Scoring core of `_heuristic_predict` (lines 258-281), as a function of the
three values the source reads from the vector. -/
def heuristicCore (entropy suspicious_api_frac code_frac : ℚ) :
    Except String (String × ℚ) :=
  let score : ℚ :=
    (if 7 < entropy then 3/10 else if 13/2 < entropy then 2/10 else 0)
      + suspicious_api_frac * (4/10)
      + (if 4/5 < code_frac then 3/10 else 0)
  let confidence := min score (19/20)
  if 1/2 < score then Except.ok ("malicious", confidence)
  else if 3/10 < score then Except.ok ("suspicious", confidence)
  else Except.ok ("benign", 1 - confidence)

/-- `_heuristic_predict` (lines 249-281).  The source reads `features[256]`,
`features[257]`, `features[259]` (its comments call them entropy, API ratio and
code ratio); a missing index is numpy's `IndexError`. -/
def heuristic_predict (features : List ℚ) : Except String (String × ℚ) :=
  match features[256]?, features[257]?, features[259]? with
  | some entropy, some suspicious_api_frac, some code_frac =>
      heuristicCore entropy suspicious_api_frac code_frac
  | _, _, _ => Except.error "IndexError"

/-- State of `MalwareDetectionService`: the `is_trained` flag plus the
trained-mode steps, kept opaque because their weights live in the model
artifact, not in the repository.  `scalerTransform` is
`self.scaler.transform(features.reshape(1, -1))` at line 229, given as the
single row of its `(1, FEATURE_SIZE)` result (`reshape(1, -1)` makes a
one-row 2-D array and sklearn's `transform` preserves the shape);
`modelForward` is the tensor conversion and forward pass of lines 232-243 on
that row; `anomalyTrained` is the whole scaler + isolation-forest body of
`detect_zero_day`'s `try` (lines 290-296, which introduce only the fresh
local `features_scaled`). -/
structure ServiceState where
  is_trained : Bool
  scalerTransform : List ℚ → Except String (List ℚ)
  modelForward : List ℚ → Except String (String × ℚ)
  anomalyTrained : List ℚ → Except String Bool

/-- `_heuristic_predict` applied to a 2-D array, as the `except` handler at
line 247 does once line 229 has rebound `features` to the scaled
`(1, FEATURE_SIZE)` array: `features[256]` is then row indexing along axis 0,
which raises `IndexError` whenever the array has at most 256 rows — always
the case here, since `reshape(1, -1)` yields exactly one row (the only call
below passes a singleton list, so the other branch is unreachable; a
surviving read would bind a whole row, not a scalar, to `entropy`, and the
scorer's `if` comparisons on it raise). -/
def heuristic_predict_2d (rows : List (List ℚ)) : Except String (String × ℚ) :=
  match rows[256]? with
  | none => Except.error "IndexError"
  | some _ => Except.error "ValueError"

/-- `predict` (lines 221-247): heuristic when untrained; otherwise the `try`
of lines 227-243, whose line-247 handler calls `_heuristic_predict` on
whatever the local `features` holds at the time of the exception — the
original 1-D vector if the scaler step itself raised (the line-229 assignment
never completed), but the rebound one-row 2-D array if a later step raised. -/
def predict (st : ServiceState) (features : List ℚ) : Except String (String × ℚ) :=
  if st.is_trained then
    match st.scalerTransform features with
    | Except.error _ => heuristic_predict features
    | Except.ok scaled =>
      match st.modelForward scaled with
      | Except.ok r => Except.ok r
      | Except.error _ => heuristic_predict_2d [scaled]
  else heuristic_predict features

/-- `detect_zero_day` (lines 283-300): `False` when untrained; the trained
path's `except` also returns `False`. -/
def detect_zero_day (st : ServiceState) (features : List ℚ) : Bool :=
  if st.is_trained then
    match st.anomalyTrained features with
    | Except.ok b => b
    | Except.error _ => false
  else false

/-- `FeatureImportance` from `backend/app/models/scan.py`. -/
structure FeatureImportance where
  feature_name : String
  importance : ℚ
  description : String

/-- `SuspiciousByte` from `backend/app/models/scan.py`. -/
structure SuspiciousByte where
  offset : ℤ
  byte_sequence : String
  confidence : ℚ
  reason : String

/-- `ExplainableAIResult` from `backend/app/models/scan.py`; the
`confidence_breakdown` dict is an association list. -/
structure ExplainableAIResult where
  feature_importance : List FeatureImportance
  suspicious_bytes : List SuspiciousByte
  model_decision : String
  confidence_breakdown : List (String × ℚ)
  risk_factors : List String

/-- Insertion step of the stable ascending argsort: the new (index, value)
pair goes in front of the first pair with value ≥ its own. -/
def insertAsc (x : ℕ × ℚ) : List (ℕ × ℚ) → List (ℕ × ℚ)
  | [] => [x]
  | y :: ys => if x.2 ≤ y.2 then x :: y :: ys else y :: insertAsc x ys

/-- Stable ascending insertion sort on (index, value) pairs. -/
def sortAsc : List (ℕ × ℚ) → List (ℕ × ℚ)
  | [] => []
  | x :: xs => insertAsc x (sortAsc xs)

/-- `np.argsort` (line 348), modelled as the stable ascending argsort. -/
def argsort (l : List ℚ) : List ℕ :=
  (sortAsc l.enum).map Prod.fst

/-- One lowercase hex digit. -/
def hexDigit (n : ℕ) : Char :=
  if n < 10 then Char.ofNat (48 + n) else Char.ofNat (87 + n)

/-- Python's `f"0x{idx:02x}"` for a byte value. -/
def hexByte (n : ℕ) : String :=
  String.mk ['0', 'x', hexDigit (n / 16 % 16), hexDigit (n % 16)]

/-- Python's `f"{q*100:.1f}"`: one-decimal percentage, modelled by rational
rounding (the exact rendering of the note text is not load-bearing). -/
def pctStr (q : ℚ) : String :=
  toString (((round (q * 1000) : ℤ) : ℚ) / 10)

/-- `np.mean`, whose NaN on an empty slice is modelled as the rational 0. -/
def qmean (l : List ℚ) : ℚ := l.sum / (l.length : ℚ)

/-- The `suspicious_bytes` list built at lines 346-357: walk the last ten
positions of the argsort of the byte-frequency slice (ascending frequency) and
keep those whose frequency exceeds 1%. -/
def suspiciousList (byte_freq : List ℚ) : List SuspiciousByte :=
  ((argsort byte_freq).drop ((argsort byte_freq).length - 10)).filterMap (fun idx =>
    let f := byte_freq.getD idx 0
    if 1/100 < f then
      some { offset := (idx : ℤ), byte_sequence := hexByte idx, confidence := f,
             reason := "Byte " ++ hexByte idx ++ " appears " ++ pctStr f
               ++ "% of the time" }
    else none)

/-- Body of `generate_explanation` (lines 305-387) once the scalar reads have
succeeded, as a function of the vector and the four scalars read from it. -/
def explainBody (features : List ℚ) (result : String)
    (entropy api_frac string_frac code_frac : ℚ) : ExplainableAIResult :=
  let byte_freq := features.take 256
  let ngram_features := (features.drop 256).take 400
  let section_features := (features.drop 657).take 4
  let feature_importance : List FeatureImportance :=
    (if 7 < entropy then
      [{ feature_name := "High Entropy", importance := 9/10,
         description := "File has high entropy indicating packed or encrypted code" }]
     else [])
    ++ (if 3/10 < api_frac then
      [{ feature_name := "Suspicious API Calls", importance := api_frac,
         description := "File contains multiple suspicious API calls" }]
     else [])
    ++ (if 1/5 < string_frac then
      [{ feature_name := "Suspicious Strings", importance := string_frac,
         description := "File contains potentially malicious strings" }]
     else [])
    ++ (if 17/20 < code_frac then
      [{ feature_name := "High Code Ratio", importance := 7/10,
         description := "High ratio of executable code to data" }]
     else [])
  let suspicious_bytes := suspiciousList byte_freq
  let confidence_breakdown : List (String × ℚ) :=
    [("byte_frequency", qmean byte_freq), ("ngram_patterns", qmean ngram_features),
     ("entropy_score", entropy), ("section_analysis", qmean section_features)]
  let risk_list : List String :=
    (if 7 < entropy then ["High entropy suggests packer/cryptor"] else [])
    ++ (if 1/2 < api_frac then ["Multiple suspicious API functions detected"] else [])
    ++ (if 3/10 < string_frac then ["Suspicious network-related strings found"] else [])
    ++ (if 5 < suspicious_bytes.length then ["Unusual byte distribution pattern"] else [])
  let risk_factors :=
    if risk_list.isEmpty then ["No obvious malicious patterns detected"] else risk_list
  { feature_importance := feature_importance,
    suspicious_bytes := suspicious_bytes.take 10,
    model_decision := "Classified as " ++ result ++ " based on feature analysis",
    confidence_breakdown := confidence_breakdown,
    risk_factors := risk_factors }

/-- `generate_explanation` (lines 302-387).  Scalar reads `features[656]` and
`section_features[1..3]` raise `IndexError` on a short vector; slices never
raise. -/
def generate_explanation (features : List ℚ) (result : String) :
    Except String ExplainableAIResult :=
  match features[656]? with
  | none => Except.error "IndexError"
  | some entropy =>
    match ((features.drop 657).take 4)[1]?, ((features.drop 657).take 4)[2]?,
        ((features.drop 657).take 4)[3]? with
    | some api_frac, some string_frac, some code_frac =>
        Except.ok (explainBody features result entropy api_frac string_frac code_frac)
    | _, _, _ => Except.error "IndexError"

/-- The feature-acquisition step of `scan_file`: `extract_features(file_path)`
whose `try` reads the file (`readBytes`, `none` when the read fails) and whose
`except` substitutes `np.random.rand(FEATURE_SIZE)` (the `randVec`
parameter). -/
def extract_features_io (log2 : ℚ → ℚ) (readBytes : Option (List Byte))
    (randVec : List ℚ) : List ℚ :=
  match readBytes with
  | some data => extract_features log2 data
  | none => randVec

/-- `scan_file` (lines 389-403): extract, predict, zero-day check, explanation,
in source order, with no exception handling of its own. -/
def scan_file (st : ServiceState) (log2 : ℚ → ℚ) (readBytes : Option (List Byte))
    (randVec : List ℚ) : Except String (String × ℚ × ExplainableAIResult × Bool) :=
  let features := extract_features_io log2 readBytes randVec
  match predict st features with
  | Except.error e => Except.error e
  | Except.ok (result, confidence) =>
    let is_zero_day := detect_zero_day st features
    match generate_explanation features result with
    | Except.error e => Except.error e
    | Except.ok explanation => Except.ok (result, confidence, explanation, is_zero_day)

/-- True exactly on `Except.ok`. -/
def exceptOk {α : Type} : Except String α → Bool
  | Except.ok _ => true
  | Except.error _ => false

/-- The `risk_factors` field of a successful explanation ([] on error). -/
def riskFactorsOf (e : Except String ExplainableAIResult) : List String :=
  match e with
  | Except.ok r => r.risk_factors
  | Except.error _ => []

/-- Distinct elements in first-occurrence order (the key order of a Python
dict). -/
def dedupFirst : List (List Byte) → List (List Byte)
  | [] => []
  | x :: xs => x :: dedupFirst (xs.filter (fun y => y ≠ x))
termination_by l => l.length
decreasing_by
  exact Nat.lt_succ_of_le (List.length_filter_le _ _)

/-- Offset of the first occurrence of `k` in `l` (length of `l` if absent). -/
def firstOcc (k : List Byte) : List (List Byte) → ℕ
  | [] => 0
  | x :: xs => if x = k then 0 else firstOcc k xs + 1

/-- Insertion step of the sort by the explicit two-part key of the
specification: count descending, first-occurrence offset ascending. -/
def specInsert (ws : List (List Byte)) (x : List Byte × ℕ) :
    List (List Byte × ℕ) → List (List Byte × ℕ)
  | [] => [x]
  | y :: ys =>
      if y.2 < x.2 ∨ (y.2 = x.2 ∧ firstOcc x.1 ws < firstOcc y.1 ws) then x :: y :: ys
      else y :: specInsert ws x ys

/-- Sort by (count descending, first-occurrence offset ascending). -/
def specSort (ws : List (List Byte)) : List (List Byte × ℕ) → List (List Byte × ℕ)
  | [] => []
  | x :: xs => specInsert ws x (specSort ws xs)

/-- The n-gram segment as the specification words it: count the occurrences of
each distinct n-byte window, order by count descending with ties broken by
first-occurrence offset ascending, take the first 200 counts, zero-pad to
200. -/
def specNgramSegment (n : ℕ) (data : List Byte) : List ℚ :=
  let ws := windows n data
  let pairs := (dedupFirst ws).map (fun k => (k, ws.count k))
  let sorted := specSort ws pairs
  let counts := (sorted.take 200).map (fun p => (p.2 : ℚ))
  counts ++ List.replicate (200 - counts.length) 0

/-- All-zero feature vector of full length. -/
def vAllZero : List ℚ := List.replicate 1000 0

/-- Full-length vector that differs from `vAllZero` only at index 256 (a
bigram-count position): entropy scalar and section-heuristics segment
untouched. -/
def vBigramBump : List ℚ := List.replicate 256 0 ++ 8 :: List.replicate 743 0

/-- Vector of length `FEATURE_SIZE - 1`. -/
def vShort : List ℚ := List.replicate 999 0

/-- Full-length vector whose byte-frequency segment has ten bytes at
frequency 1/10 (entropy scalar and section heuristics all zero). -/
def vTieFreq : List ℚ := List.replicate 10 (1/10) ++ List.replicate 990 0

/-- Untrained service state (no model artifact loaded). -/
def stUntrained : ServiceState :=
  { is_trained := false
    scalerTransform := fun _ => Except.error "unused"
    modelForward := fun _ => Except.error "unused"
    anomalyTrained := fun _ => Except.error "unused" }

/-- Trained service state whose scaler step itself fails: the line-229
assignment never completes, so the handler still sees the original 1-D
vector. -/
def stScalerFail : ServiceState :=
  { is_trained := true
    scalerTransform := fun _ => Except.error "scaler error"
    modelForward := fun _ => Except.error "unused"
    anomalyTrained := fun _ => Except.error "anomaly error" }

/-- Trained service state whose scaler step succeeds (as the identity on the
row) but whose forward pass fails: the regime in which the line-247 handler
sees the rebound one-row 2-D array. -/
def stPostFail : ServiceState :=
  { is_trained := true
    scalerTransform := fun f => Except.ok f
    modelForward := fun _ => Except.error "model error"
    anomalyTrained := fun _ => Except.error "anomaly error" }

/-- The byte-frequency segment always has 256 entries. -/
theorem byteFreq_length (data : List Byte) : (byteFreq data).length = 256 := by
  simp [byteFreq]

/-- An n-gram segment always has exactly 200 entries. -/
theorem ngramSegment_length (n : ℕ) (data : List Byte) :
    (ngramSegment n data).length = 200 := by
  simp only [ngramSegment, List.length_append, List.length_map, List.length_replicate]
  have h := List.length_take_le 200 (sortByCountDesc (ngramCounts (windows n data)))
  omega

/-- The section-feature list always has 4 entries. -/
theorem sectionFeatures_length (data : List Byte) :
    (sectionFeatures data).length = 4 := by
  unfold sectionFeatures
  split <;> simp

/-- The raw concatenated feature list has 661 entries. -/
theorem rawFeatures_length (log2 : ℚ → ℚ) (data : List Byte) :
    (rawFeatures log2 data).length = 661 := by
  simp [rawFeatures, byteFreq_length, ngramSegment_length, sectionFeatures_length]

/-- Since 661 < 1000, the pad/truncate step always zero-pads by 339. -/
theorem extract_features_eq_pad (log2 : ℚ → ℚ) (data : List Byte) :
    extract_features log2 data = rawFeatures log2 data ++ List.replicate 339 0 := by
  have h := rawFeatures_length log2 data
  simp only [extract_features, h, FEATURE_SIZE]
  norm_num

/-- The extracted vector has full length for every byte input. -/
theorem extract_features_length (log2 : ℚ → ℚ) (data : List Byte) :
    (extract_features log2 data).length = FEATURE_SIZE := by
  rw [extract_features_eq_pad, List.length_append, rawFeatures_length,
    List.length_replicate, FEATURE_SIZE]

/-- C7: for every non-empty byte input, `extract` returns a feature vector of
exactly `featureSize` elements (truncating or zero-padding the concatenated
segments as needed). -/
theorem C7_extract_length (log2 : ℚ → ℚ) (data : List Byte) (hne : data ≠ []) :
    (extract_features log2 data).length = FEATURE_SIZE :=
  extract_features_length log2 data

theorem C7_extract_length_witness :
    ([(65 : Byte)] ≠ ([] : List Byte)) ∧
      (extract_features (fun _ => 0) [(65 : Byte)]).length = FEATURE_SIZE :=
  ⟨by simp, C7_extract_length (fun _ => 0) [(65 : Byte)] (by simp)⟩

/-- C3: contrary to the claimed `EmptyInputError`, the code run on the empty
byte buffer raises nothing and produces a full-length feature vector (its
byte-frequency entries are numpy's 0/0 = NaN, modelled as the rational 0). -/
theorem C3_empty_input_produces_vector (log2 : ℚ → ℚ) :
    (extract_features log2 ([] : List Byte)).length = FEATURE_SIZE :=
  extract_features_length log2 []

/-- C9: when no trained model state is present, `detect_zero_day` returns
`false` for every feature vector, unconditionally. -/
theorem C9_untrained_no_zero_day (st : ServiceState) (features : List ℚ)
    (h : st.is_trained = false) : detect_zero_day st features = false := by
  simp [detect_zero_day, h]

theorem C9_untrained_no_zero_day_witness :
    stUntrained.is_trained = false ∧ detect_zero_day stUntrained [] = false :=
  ⟨rfl, C9_untrained_no_zero_day stUntrained [] rfl⟩

/-- Once the three index reads succeed, the heuristic classifier is the
scoring core applied to the values read. -/
theorem heuristic_predict_eq_core (f : List ℚ) (e a c : ℚ) (h1 : f[256]? = some e)
    (h2 : f[257]? = some a) (h3 : f[259]? = some c) :
    heuristic_predict f = heuristicCore e a c := by
  unfold heuristic_predict
  rw [h1, h2, h3]

/-- Heuristic score of the all-zero reads: score 0, label benign, confidence
1 - 0 = 1. -/
theorem heuristicCore_zeros : heuristicCore 0 0 0 = Except.ok ("benign", 1) := by
  norm_num [heuristicCore, min_def]

/-- Heuristic result when the value read as entropy exceeds 7 and the other
two reads are 0: score 0.3, label benign, confidence 0.7. -/
theorem heuristicCore_high (e : ℚ) (h : 7 < e) :
    heuristicCore e 0 0 = Except.ok ("benign", 7/10) := by
  unfold heuristicCore
  dsimp only
  simp only [if_pos h]
  norm_num [min_def]

/-- C4: contrary to the claimed `ShapeMismatchError`, `predict` in heuristic
mode accepts a vector of length `FEATURE_SIZE - 1` (999 zeros) and returns the
pair ("benign", 1.0); no shape check exists anywhere in the code. -/
theorem C4_no_shape_error :
    vShort.length = FEATURE_SIZE - 1 ∧
      predict stUntrained vShort = Except.ok ("benign", 1) := by
  constructor
  · show (List.replicate 999 (0 : ℚ)).length = FEATURE_SIZE - 1
    rw [List.length_replicate, FEATURE_SIZE]
  · calc predict stUntrained vShort = heuristic_predict vShort := rfl
      _ = heuristicCore 0 0 0 := heuristic_predict_eq_core vShort 0 0 0 rfl rfl rfl
      _ = Except.ok ("benign", 1) := heuristicCore_zeros

/-- C1: the heuristic classifier is NOT a function of the entropy scalar and
the sectionHeuristics segment: `vAllZero` and `vBigramBump` are full-length
vectors that agree on indices 656-660 (entropy and section heuristics) and
differ only at index 256 (a bigram-count position), yet `_heuristic_predict`
returns confidence 1.0 for one and 0.7 for the other, because it reads
indices 256, 257, 259 instead of 656-660. -/
theorem C1_heuristic_reads_bigram_positions :
    vAllZero.length = FEATURE_SIZE ∧ vBigramBump.length = FEATURE_SIZE ∧
    (vAllZero.drop 656).take 5 = (vBigramBump.drop 656).take 5 ∧
    heuristic_predict vAllZero = Except.ok ("benign", 1) ∧
    heuristic_predict vBigramBump = Except.ok ("benign", 7/10) := by
  refine ⟨?_, ?_, rfl, ?_, ?_⟩
  · show (List.replicate 1000 (0 : ℚ)).length = FEATURE_SIZE
    rw [List.length_replicate, FEATURE_SIZE]
  · show (List.replicate 256 (0 : ℚ) ++ 8 :: List.replicate 743 0).length = FEATURE_SIZE
    rw [List.length_append, List.length_replicate, List.length_cons,
      List.length_replicate, FEATURE_SIZE]
  · calc heuristic_predict vAllZero
        = heuristicCore 0 0 0 := heuristic_predict_eq_core vAllZero 0 0 0 rfl rfl rfl
      _ = Except.ok ("benign", 1) := heuristicCore_zeros
  · calc heuristic_predict vBigramBump
        = heuristicCore 8 0 0 := heuristic_predict_eq_core vBigramBump 8 0 0 rfl rfl rfl
      _ = Except.ok ("benign", 7/10) := heuristicCore_high 8 (by norm_num)

/-- An `Except` value is `exceptOk` exactly when it is an `ok`. -/
theorem exceptOk_iff {α : Type} (e : Except String α) :
    exceptOk e = true ↔ ∃ a, e = Except.ok a := by
  cases e <;> simp [exceptOk]

theorem heuristicCore_isOk (e a c : ℚ) : exceptOk (heuristicCore e a c) = true := by
  unfold heuristicCore
  dsimp only
  repeat' split
  all_goals rfl

/-- The heuristic classifier succeeds on any vector long enough for its three
index reads. -/
theorem heuristic_predict_isOk (f : List ℚ) (h : 259 < f.length) :
    exceptOk (heuristic_predict f) = true := by
  have h256 : f[256]? = some (f.get ⟨256, by omega⟩) :=
    List.getElem?_eq_getElem (by omega)
  have h257 : f[257]? = some (f.get ⟨257, by omega⟩) :=
    List.getElem?_eq_getElem (by omega)
  have h259 : f[259]? = some (f.get ⟨259, by omega⟩) :=
    List.getElem?_eq_getElem (by omega)
  rw [heuristic_predict_eq_core f _ _ _ h256 h257 h259]
  exact heuristicCore_isOk _ _ _

/-- In untrained mode, `predict` is exactly the heuristic classifier. -/
theorem predict_untrained (st : ServiceState) (f : List ℚ)
    (h : st.is_trained = false) : predict st f = heuristic_predict f := by
  simp [predict, h]

/-- On the single-row array produced by `reshape(1, -1)`, the handler's
`features[256]` row read is out of range. -/
theorem heuristic_predict_2d_singleton (r : List ℚ) :
    heuristic_predict_2d [r] = Except.error "IndexError" := rfl

/-- Once the scalar reads succeed, the explanation is `ok` of the body applied
to the values read. -/
theorem generate_explanation_eq (v : List ℚ) (lab : String) (e s1 s2 s3 : ℚ)
    (h656 : v[656]? = some e) (h658 : v[658]? = some s1)
    (h659 : v[659]? = some s2) (h660 : v[660]? = some s3) :
    generate_explanation v lab = Except.ok (explainBody v lab e s1 s2 s3) := by
  have t1 : ((v.drop 657).take 4)[1]? = some s1 := by
    rw [List.getElem?_take_of_lt (by norm_num), List.getElem?_drop]
    exact h658
  have t2 : ((v.drop 657).take 4)[2]? = some s2 := by
    rw [List.getElem?_take_of_lt (by norm_num), List.getElem?_drop]
    exact h659
  have t3 : ((v.drop 657).take 4)[3]? = some s3 := by
    rw [List.getElem?_take_of_lt (by norm_num), List.getElem?_drop]
    exact h660
  unfold generate_explanation
  rw [h656, t1, t2, t3]

/-- The explanation generator succeeds on any full-length vector. -/
theorem generate_explanation_isOk (f : List ℚ) (res : String)
    (h : f.length = FEATURE_SIZE) :
    exceptOk (generate_explanation f res) = true := by
  have hlen : f.length = 1000 := h
  have h656 : f[656]? = some (f.get ⟨656, by omega⟩) :=
    List.getElem?_eq_getElem (by omega)
  have h658 : f[658]? = some (f.get ⟨658, by omega⟩) :=
    List.getElem?_eq_getElem (by omega)
  have h659 : f[659]? = some (f.get ⟨659, by omega⟩) :=
    List.getElem?_eq_getElem (by omega)
  have h660 : f[660]? = some (f.get ⟨660, by omega⟩) :=
    List.getElem?_eq_getElem (by omega)
  rw [generate_explanation_eq f res _ _ _ _ h656 h658 h659 h660]
  rfl

/-- The feature-acquisition step always yields a full-length vector when the
random substitute has full length. -/
theorem extract_features_io_length (log2 : ℚ → ℚ) (readBytes : Option (List Byte))
    (randVec : List ℚ) (hlen : randVec.length = FEATURE_SIZE) :
    (extract_features_io log2 readBytes randVec).length = FEATURE_SIZE := by
  cases readBytes with
  | none => exact hlen
  | some data => exact extract_features_length log2 data

/-- C10: the scan pipeline is NOT total at its public interface.  A failed
byte read is indeed replaced by the random vector, an untrained scan always
returns an `ok` quadruple, a failure of the scaler step itself falls back to
the heuristic classifier on the original vector, and an anomaly-detection
error yields `false`; but when the trained path fails after line 229 has
rebound the local `features` to the scaled one-row 2-D array, the line-247
handler's `_heuristic_predict(features)` performs the out-of-range row read
`features[256]`, and the resulting `IndexError` escapes `predict` and
`scan_file` uncaught. -/
theorem C10_trained_fallback_raises (st : ServiceState) (log2 : ℚ → ℚ)
    (readBytes : Option (List Byte)) (randVec : List ℚ)
    (hlen : randVec.length = FEATURE_SIZE) :
    extract_features_io log2 none randVec = randVec ∧
    (st.is_trained = false →
      exceptOk (scan_file st log2 readBytes randVec) = true) ∧
    (∀ e, st.is_trained = true →
      st.scalerTransform (extract_features_io log2 readBytes randVec) = Except.error e →
      predict st (extract_features_io log2 readBytes randVec)
        = heuristic_predict (extract_features_io log2 readBytes randVec)) ∧
    (st.is_trained = true →
      exceptOk (st.anomalyTrained (extract_features_io log2 readBytes randVec)) = false →
      detect_zero_day st (extract_features_io log2 readBytes randVec) = false) ∧
    (∀ scaled e, st.is_trained = true →
      st.scalerTransform (extract_features_io log2 readBytes randVec) = Except.ok scaled →
      st.modelForward scaled = Except.error e →
      scan_file st log2 readBytes randVec = Except.error "IndexError") := by
  have hf : (extract_features_io log2 readBytes randVec).length = FEATURE_SIZE :=
    extract_features_io_length log2 readBytes randVec hlen
  have hfgt : 259 < (extract_features_io log2 readBytes randVec).length := by
    rw [hf]; norm_num [FEATURE_SIZE]
  refine ⟨rfl, ?_, ?_, ?_, ?_⟩
  · intro hun
    have hpred : predict st (extract_features_io log2 readBytes randVec)
        = heuristic_predict (extract_features_io log2 readBytes randVec) :=
      predict_untrained st _ hun
    obtain ⟨⟨res, conf⟩, hp⟩ :=
      (exceptOk_iff _).1 (heuristic_predict_isOk (extract_features_io log2 readBytes randVec) hfgt)
    obtain ⟨ex, hex⟩ :=
      (exceptOk_iff _).1 (generate_explanation_isOk (extract_features_io log2 readBytes randVec) res hf)
    rw [exceptOk_iff]
    refine ⟨(res, conf, ex, detect_zero_day st (extract_features_io log2 readBytes randVec)), ?_⟩
    unfold scan_file
    dsimp only
    rw [hpred, hp]
    dsimp only
    rw [hex]
  · intro e ht hs
    unfold predict
    rw [ht]
    simp only [if_true]
    rw [hs]
  · intro ht hfail
    unfold detect_zero_day
    rw [ht]
    simp only [if_true]
    cases hpt : st.anomalyTrained (extract_features_io log2 readBytes randVec) with
    | ok b => rw [hpt] at hfail; simp [exceptOk] at hfail
    | error e => rfl
  · intro scaled e ht hs hm
    have hpred : predict st (extract_features_io log2 readBytes randVec)
        = Except.error "IndexError" := by
      unfold predict
      rw [ht]
      simp only [if_true]
      rw [hs]
      dsimp only
      rw [hm]
      exact heuristic_predict_2d_singleton scaled
    unfold scan_file
    dsimp only
    rw [hpred]

theorem C10_trained_fallback_raises_witness :
    (List.replicate 1000 (0 : ℚ)).length = FEATURE_SIZE ∧
    scan_file stPostFail (fun _ => 0) none (List.replicate 1000 (0 : ℚ))
      = Except.error "IndexError" ∧
    exceptOk (scan_file stUntrained (fun _ => 0) none (List.replicate 1000 (0 : ℚ))) = true ∧
    predict stScalerFail (List.replicate 1000 (0 : ℚ))
      = heuristic_predict (List.replicate 1000 (0 : ℚ)) ∧
    detect_zero_day stPostFail (List.replicate 1000 (0 : ℚ)) = false := by
  have hlen : (List.replicate 1000 (0 : ℚ)).length = FEATURE_SIZE := by
    rw [List.length_replicate, FEATURE_SIZE]
  have hpost := C10_trained_fallback_raises stPostFail (fun _ => 0) none
    (List.replicate 1000 (0 : ℚ)) hlen
  have hun := C10_trained_fallback_raises stUntrained (fun _ => 0) none
    (List.replicate 1000 (0 : ℚ)) hlen
  have hsc := C10_trained_fallback_raises stScalerFail (fun _ => 0) none
    (List.replicate 1000 (0 : ℚ)) hlen
  exact ⟨hlen,
    hpost.2.2.2.2 (List.replicate 1000 (0 : ℚ)) "model error" rfl rfl rfl,
    hun.2.1 rfl,
    hsc.2.2.1 "scaler error" rfl rfl,
    hpost.2.2.2.1 rfl rfl⟩

/-- Unfolding equation: inserting into nil. -/
theorem insertAsc_nil (x : ℕ × ℚ) : insertAsc x [] = [x] := rfl

/-- Unfolding equation: inserting into a cons. -/
theorem insertAsc_cons (x y : ℕ × ℚ) (ys : List (ℕ × ℚ)) :
    insertAsc x (y :: ys) = if x.2 ≤ y.2 then x :: y :: ys else y :: insertAsc x ys := rfl

/-- Unfolding equation: sorting a cons. -/
theorem sortAsc_cons (x : ℕ × ℚ) (xs : List (ℕ × ℚ)) :
    sortAsc (x :: xs) = insertAsc x (sortAsc xs) := rfl

/-- Inserting an element no greater than everything in the list puts it in
front. -/
theorem insertAsc_front (x : ℕ × ℚ) (l : List (ℕ × ℚ)) (h : ∀ y ∈ l, x.2 ≤ y.2) :
    insertAsc x l = x :: l := by
  cases l with
  | nil => rfl
  | cons y ys =>
      rw [insertAsc_cons, if_pos (h y (List.mem_cons_self y ys))]

/-- Inserting an element strictly greater than everything in a leading block
passes over the whole block. -/
theorem insertAsc_append_of_not_le (x : ℕ × ℚ) (B L : List (ℕ × ℚ))
    (h : ∀ y ∈ B, ¬ x.2 ≤ y.2) : insertAsc x (B ++ L) = B ++ insertAsc x L := by
  induction B with
  | nil => rfl
  | cons b bs ih =>
      rw [List.cons_append, insertAsc_cons, if_neg (h b (List.mem_cons_self b bs)),
        ih (fun y hy => h y (List.mem_cons_of_mem b hy)), List.cons_append]

/-- The stable sort leaves a list already sorted by value untouched. -/
theorem sortAsc_pairwise_id (l : List (ℕ × ℚ))
    (h : List.Pairwise (fun p q => p.2 ≤ q.2) l) : sortAsc l = l := by
  induction l with
  | nil => rfl
  | cons x xs ih =>
      rw [List.pairwise_cons] at h
      rw [sortAsc_cons, ih h.2]
      exact insertAsc_front x xs h.1

/-- A block of a single larger value followed by a block of a single smaller
value sorts to smaller block first, each block kept in order (stability). -/
theorem sortAsc_two_blocks (A B : List (ℕ × ℚ)) (va vb : ℚ)
    (hA : ∀ p ∈ A, p.2 = va) (hB : ∀ p ∈ B, p.2 = vb) (hlt : vb < va) :
    sortAsc (A ++ B) = B ++ A := by
  induction A with
  | nil =>
      rw [List.nil_append, List.append_nil]
      refine sortAsc_pairwise_id B (List.Pairwise.imp_of_mem ?_
        (List.pairwise_of_forall_mem_list (fun a _ b _ => trivial)))
      intro a b ha hb _
      rw [hB _ ha, hB _ hb]
  | cons x A2 ih =>
      rw [List.cons_append, sortAsc_cons,
        ih (fun p hp => hA p (List.mem_cons_of_mem x hp)),
        insertAsc_append_of_not_le x B A2 (fun y hy => by
          rw [hA x (List.mem_cons_self x A2), hB y hy]
          exact not_le_of_lt hlt),
        insertAsc_front x A2 (fun y hy => by
          rw [hA x (List.mem_cons_self x A2), hA y (List.mem_cons_of_mem x hy)])]

/-- `enumFrom` distributes over append, shifting the start index. -/
theorem enumFrom_append (l1 l2 : List ℚ) (i : ℕ) :
    (l1 ++ l2).enumFrom i = l1.enumFrom i ++ l2.enumFrom (i + l1.length) := by
  induction l1 generalizing i with
  | nil => simp
  | cons a as ih =>
      rw [List.cons_append, List.enumFrom_cons, ih (i + 1), List.enumFrom_cons,
        List.cons_append, List.length_cons]
      have harith : i + 1 + as.length = i + (as.length + 1) := by omega
      rw [harith]

/-- Every pair enumerated from a replicate carries the replicated value. -/
theorem enumFrom_replicate_snd (n i : ℕ) (c : ℚ) :
    ∀ p ∈ (List.replicate n c).enumFrom i, p.2 = c := by
  induction n generalizing i with
  | zero => intro p hp; simp [List.replicate] at hp
  | succ m ih =>
      intro p hp
      rw [List.replicate_succ, List.enumFrom_cons] at hp
      rcases List.mem_cons.1 hp with h | h
      · rw [h]
      · exact ih (i + 1) p h

/-- A `filterMap` whose function succeeds on every element keeps the length. -/
theorem filterMap_length_all_some {α β : Type} (f : α → Option β) (l : List α)
    (h : ∀ a ∈ l, ∃ b, f a = some b) : (l.filterMap f).length = l.length := by
  induction l with
  | nil => rfl
  | cons a as ih =>
      obtain ⟨b, hb⟩ := h a (List.mem_cons_self a as)
      rw [List.filterMap_cons, hb, List.length_cons,
        ih (fun x hx => h x (List.mem_cons_of_mem a hx)), List.length_cons]

/-- On an all-zero byte-frequency slice no byte exceeds the 1% threshold, so
the suspicious-byte list is empty. -/
theorem suspiciousList_replicate_zero (n : ℕ) :
    suspiciousList (List.replicate n (0 : ℚ)) = [] := by
  unfold suspiciousList
  rw [List.filterMap_eq_nil_iff]
  intro idx _
  dsimp only
  have hg : (List.replicate n (0 : ℚ)).getD idx 0 = 0 := by
    rw [List.getD_eq_getElem?_getD]
    rcases Nat.lt_or_ge idx n with h | h
    · rw [List.getElem?_replicate_of_lt h]; rfl
    · rw [List.getElem?_eq_none (by rw [List.length_replicate]; exact h)]; rfl
  rw [hg, if_neg (by norm_num)]

/-- On a byte-frequency slice with ten bytes at frequency 1/10 and the rest
zero, exactly those ten bytes pass the 1% threshold. -/
theorem suspiciousList_ten_tenths_length :
    (suspiciousList (List.replicate 10 ((1 : ℚ)/10) ++ List.replicate 246 0)).length
      = 10 := by
  have hA : ∀ p ∈ (List.replicate 10 ((1 : ℚ)/10)).enumFrom 0, p.2 = 1/10 :=
    enumFrom_replicate_snd 10 0 (1/10)
  have hB : ∀ p ∈ (List.replicate 246 (0 : ℚ)).enumFrom 10, p.2 = 0 :=
    enumFrom_replicate_snd 246 10 0
  have henum : (List.replicate 10 ((1 : ℚ)/10) ++ List.replicate 246 0).enum
      = (List.replicate 10 ((1 : ℚ)/10)).enumFrom 0
        ++ (List.replicate 246 (0 : ℚ)).enumFrom 10 := by
    show (List.replicate 10 ((1 : ℚ)/10) ++ List.replicate 246 0).enumFrom 0 = _
    rw [enumFrom_append, List.length_replicate]
  have hsort : sortAsc ((List.replicate 10 ((1 : ℚ)/10) ++ List.replicate 246 0).enum)
      = (List.replicate 246 (0 : ℚ)).enumFrom 10
        ++ (List.replicate 10 ((1 : ℚ)/10)).enumFrom 0 := by
    rw [henum]
    exact sortAsc_two_blocks _ _ (1/10) 0 hA hB (by norm_num)
  have hargsort : argsort (List.replicate 10 ((1 : ℚ)/10) ++ List.replicate 246 0)
      = List.range' 10 246 ++ List.range' 0 10 := by
    unfold argsort
    rw [hsort, List.map_append, List.enumFrom_map_fst, List.enumFrom_map_fst,
      List.length_replicate, List.length_replicate]
  unfold suspiciousList
  rw [hargsort]
  have hlen : (List.range' 10 246 ++ List.range' 0 10).length = 256 := by
    rw [List.length_append, List.length_range', List.length_range']
  rw [hlen]
  have hdrop : (List.range' 10 246 ++ List.range' 0 10).drop (256 - 10)
      = List.range' 0 10 :=
    List.drop_left' (by rw [List.length_range'])
  rw [hdrop]
  rw [filterMap_length_all_some _ _ ?_, List.length_range']
  intro idx hidx
  have hlt : idx < 10 := by
    have := List.mem_range'.1 hidx
    omega
  dsimp only
  have hg : (List.replicate 10 ((1 : ℚ)/10) ++ List.replicate 246 0).getD idx 0
      = 1/10 := by
    rw [List.getD_eq_getElem?_getD,
      List.getElem?_append_left (by rw [List.length_replicate]; exact hlt),
      List.getElem?_replicate_of_lt hlt]
    rfl
  rw [hg, if_pos (by norm_num)]
  exact ⟨_, rfl⟩

/-- The default-entry guard of the risk-factor list never yields an empty
list. -/
theorem risk_default_ne_nil (rl : List String) :
    (if rl.isEmpty then ["No obvious malicious patterns detected"] else rl) ≠ [] := by
  split
  · simp
  · rename_i hne
    intro hnil
    exact hne (by rw [hnil]; rfl)

/-- `riskFactorsOf` of a successful explanation is its `risk_factors` field. -/
theorem riskFactorsOf_ok (r : ExplainableAIResult) :
    riskFactorsOf (Except.ok r) = r.risk_factors := rfl

/-- Inversion: a successful explanation comes from successful scalar reads and
is the body applied to the values read. -/
theorem generate_explanation_ok_inv (v : List ℚ) (lab : String)
    (r : ExplainableAIResult) (h : generate_explanation v lab = Except.ok r) :
    ∃ e s1 s2 s3, v[656]? = some e ∧ v[658]? = some s1 ∧ v[659]? = some s2 ∧
      v[660]? = some s3 ∧ r = explainBody v lab e s1 s2 s3 := by
  have t1 : ((v.drop 657).take 4)[1]? = v[658]? := by
    rw [List.getElem?_take_of_lt (by norm_num), List.getElem?_drop]
  have t2 : ((v.drop 657).take 4)[2]? = v[659]? := by
    rw [List.getElem?_take_of_lt (by norm_num), List.getElem?_drop]
  have t3 : ((v.drop 657).take 4)[3]? = v[660]? := by
    rw [List.getElem?_take_of_lt (by norm_num), List.getElem?_drop]
  unfold generate_explanation at h
  rw [t1, t2, t3] at h
  split at h
  · exact absurd h (by simp)
  · split at h
    · rw [Except.ok.injEq] at h
      refine ⟨_, _, _, _, ?_, ?_, ?_, ?_, h.symm⟩ <;> assumption
    · exact absurd h (by simp)

/-- C5 (amended): `riskFactors` is never empty; and when none of the three
tabulated conditions holds AND at most five suspicious bytes were selected,
the list is exactly the single default entry.  (The code has a fourth,
unlisted risk factor fired by more than five suspicious bytes.) -/
theorem C5_risk_factors :
    (∀ v lab r, generate_explanation v lab = Except.ok r → r.risk_factors ≠ []) ∧
    (∀ v lab r, generate_explanation v lab = Except.ok r →
      (∀ e, v[656]? = some e → e ≤ 7) →
      (∀ s, v[658]? = some s → s ≤ 1/2) →
      (∀ s, v[659]? = some s → s ≤ 3/10) →
      r.suspicious_bytes.length ≤ 5 →
      r.risk_factors = ["No obvious malicious patterns detected"]) := by
  constructor
  · intro v lab r h
    obtain ⟨e, s1, s2, s3, _, _, _, _, hr⟩ := generate_explanation_ok_inv v lab r h
    rw [hr]
    unfold explainBody
    dsimp only
    exact risk_default_ne_nil _
  · intro v lab r h he hs1 hs2 hsusp
    obtain ⟨e, s1, s2, s3, h656, h658, h659, _, hr⟩ :=
      generate_explanation_ok_inv v lab r h
    have he7 : e ≤ 7 := he e h656
    have ha : s1 ≤ 1/2 := hs1 s1 h658
    have hs : s2 ≤ 3/10 := hs2 s2 h659
    have hlen : ¬ 5 < (suspiciousList (v.take 256)).length := by
      intro hgt
      apply absurd hsusp
      rw [hr]
      unfold explainBody
      dsimp only
      rw [List.length_take]
      omega
    rw [hr]
    unfold explainBody
    dsimp only
    rw [if_neg (not_lt.2 he7), if_neg (not_lt.2 ha), if_neg (not_lt.2 hs),
      if_neg hlen]
    rfl

theorem C5_risk_factors_witness :
    riskFactorsOf (generate_explanation vAllZero "benign")
      = ["No obvious malicious patterns detected"] := by
  have hgen : generate_explanation vAllZero "benign"
      = Except.ok (explainBody vAllZero "benign" 0 0 0 0) :=
    generate_explanation_eq vAllZero "benign" 0 0 0 0 rfl rfl rfl rfl
  have h0 : vAllZero[656]? = some (0 : ℚ) := rfl
  have h8 : vAllZero[658]? = some (0 : ℚ) := rfl
  have h9 : vAllZero[659]? = some (0 : ℚ) := rfl
  have hsusp : (explainBody vAllZero "benign" 0 0 0 0).suspicious_bytes.length ≤ 5 := by
    unfold explainBody
    dsimp only
    rw [show vAllZero.take 256 = List.replicate 256 (0 : ℚ) from rfl,
      suspiciousList_replicate_zero]
    norm_num
  have hmain := C5_risk_factors.2 vAllZero "benign"
    (explainBody vAllZero "benign" 0 0 0 0) hgen
    (fun e hev => by rw [h0, Option.some.injEq] at hev; rw [← hev]; norm_num)
    (fun s hsv => by rw [h8, Option.some.injEq] at hsv; rw [← hsv]; norm_num)
    (fun s hsv => by rw [h9, Option.some.injEq] at hsv; rw [← hsv]; norm_num)
    hsusp
  rw [hgen, riskFactorsOf_ok]
  exact hmain

/-- C5 counterexample: a vector with entropy 0, API ratio 0, string ratio 0
(none of the tabulated risk conditions) whose byte-frequency slice has ten
bytes above 1%: the code emits the unlisted fourth risk factor instead of the
default entry. -/
theorem C5_fourth_risk_factor :
    vTieFreq[656]? = some 0 ∧ vTieFreq[658]? = some 0 ∧ vTieFreq[659]? = some 0 ∧
    riskFactorsOf (generate_explanation vTieFreq "benign")
      = ["Unusual byte distribution pattern"] := by
  refine ⟨rfl, rfl, rfl, ?_⟩
  have hgen : generate_explanation vTieFreq "benign"
      = Except.ok (explainBody vTieFreq "benign" 0 0 0 0) :=
    generate_explanation_eq vTieFreq "benign" 0 0 0 0 rfl rfl rfl rfl
  rw [hgen, riskFactorsOf_ok]
  unfold explainBody
  dsimp only
  rw [show vTieFreq.take 256 = List.replicate 10 ((1 : ℚ)/10) ++ List.replicate 246 0
    from rfl]
  rw [if_neg (show ¬ (7 : ℚ) < 0 by norm_num),
    if_neg (show ¬ (1 : ℚ)/2 < 0 by norm_num),
    if_neg (show ¬ (3 : ℚ)/10 < 0 by norm_num),
    if_pos (show 5 < (suspiciousList (List.replicate 10 ((1 : ℚ)/10)
        ++ List.replicate 246 0)).length
      by rw [suspiciousList_ten_tenths_length]; norm_num)]
  rfl

/-- Below the raw length 661, the padded vector reads as the raw feature
list. -/
theorem extract_getElem?_lt (log2 : ℚ → ℚ) (data : List Byte) (i : ℕ) (h : i < 661) :
    (extract_features log2 data)[i]? = (rawFeatures log2 data)[i]? := by
  rw [extract_features_eq_pad,
    List.getElem?_append_left (by rw [rawFeatures_length]; omega)]

/-- Length of the first two segments. -/
theorem bf_s2_length (data : List Byte) :
    (byteFreq data ++ ngramSegment 2 data).length = 456 := by
  rw [List.length_append, byteFreq_length, ngramSegment_length]

/-- Length of the first three segments. -/
theorem bf_s23_length (data : List Byte) :
    (byteFreq data ++ ngramSegment 2 data ++ ngramSegment 3 data).length = 656 := by
  rw [List.length_append, bf_s2_length, ngramSegment_length]

/-- Length of the first four segments. -/
theorem bf_s23e_length (log2 : ℚ → ℚ) (data : List Byte) :
    (byteFreq data ++ ngramSegment 2 data ++ ngramSegment 3 data
      ++ [entropyOf log2 data]).length = 657 := by
  rw [List.length_append, bf_s23_length]
  rfl

/-- Index 256 of the raw features is the first bigram count. -/
theorem raw_getElem?_256 (log2 : ℚ → ℚ) (data : List Byte) :
    (rawFeatures log2 data)[256]? = (ngramSegment 2 data)[0]? := by
  unfold rawFeatures
  rw [List.getElem?_append_left (by rw [bf_s23e_length]; omega),
    List.getElem?_append_left (by rw [bf_s23_length]; omega),
    List.getElem?_append_left (by rw [bf_s2_length]; omega),
    List.getElem?_append_right (by rw [byteFreq_length]),
    show 256 - (byteFreq data).length = 0 from by rw [byteFreq_length]]

/-- Index 257 of the raw features is the second bigram count. -/
theorem raw_getElem?_257 (log2 : ℚ → ℚ) (data : List Byte) :
    (rawFeatures log2 data)[257]? = (ngramSegment 2 data)[1]? := by
  unfold rawFeatures
  rw [List.getElem?_append_left (by rw [bf_s23e_length]; omega),
    List.getElem?_append_left (by rw [bf_s23_length]; omega),
    List.getElem?_append_left (by rw [bf_s2_length]; omega),
    List.getElem?_append_right (by rw [byteFreq_length]; omega),
    show 257 - (byteFreq data).length = 1 from by rw [byteFreq_length]]

/-- Index 259 of the raw features is the fourth bigram count. -/
theorem raw_getElem?_259 (log2 : ℚ → ℚ) (data : List Byte) :
    (rawFeatures log2 data)[259]? = (ngramSegment 2 data)[3]? := by
  unfold rawFeatures
  rw [List.getElem?_append_left (by rw [bf_s23e_length]; omega),
    List.getElem?_append_left (by rw [bf_s23_length]; omega),
    List.getElem?_append_left (by rw [bf_s2_length]; omega),
    List.getElem?_append_right (by rw [byteFreq_length]; omega),
    show 259 - (byteFreq data).length = 3 from by rw [byteFreq_length]]

/-- Index 656 of the raw features is the entropy scalar. -/
theorem raw_getElem?_656 (log2 : ℚ → ℚ) (data : List Byte) :
    (rawFeatures log2 data)[656]? = some (entropyOf log2 data) := by
  unfold rawFeatures
  rw [List.getElem?_append_left (by rw [bf_s23e_length]; omega),
    List.getElem?_append_right (by rw [bf_s23_length]),
    show 656 - (byteFreq data ++ ngramSegment 2 data ++ ngramSegment 3 data).length = 0
      from by rw [bf_s23_length]]
  rfl

/-- Index 660 of the raw features is the fourth section feature. -/
theorem raw_getElem?_660 (log2 : ℚ → ℚ) (data : List Byte) :
    (rawFeatures log2 data)[660]? = (sectionFeatures data)[3]? := by
  unfold rawFeatures
  rw [List.getElem?_append_right (by rw [bf_s23e_length]; omega),
    show 660 - (byteFreq data ++ ngramSegment 2 data ++ ngramSegment 3 data
      ++ [entropyOf log2 data]).length = 3 from by rw [bf_s23e_length]]

/-- All n-gram windows of a constant input are the constant window. -/
theorem windows_replicate (n k : ℕ) (b : Byte) (h : n ≤ k) :
    windows n (List.replicate k b) = List.replicate (k + 1 - n) (List.replicate n b) := by
  unfold windows
  rw [List.length_replicate]
  have hcong : ∀ i ∈ List.range (k + 1 - n),
      ((List.replicate k b).drop i).take n = (fun _ => List.replicate n b) i := by
    intro i hi
    have hi2 : i < k + 1 - n := List.mem_range.1 hi
    rw [List.drop_replicate, List.take_replicate,
      show min n (k - i) = n from by omega]
  rw [List.map_congr_left hcong, List.map_const', List.length_range]

/-- Folding the dict accumulation over copies of the key just adds to its
count. -/
theorem foldl_bump_replicate (m : ℕ) (x : List Byte) : ∀ j : ℕ,
    List.foldl (fun acc ng => bumpCount ng acc) [(x, j)] (List.replicate m x)
      = [(x, j + m)] := by
  induction m with
  | zero => intro j; rw [List.replicate_zero, List.foldl_nil, Nat.add_zero]
  | succ p ih =>
      intro j
      rw [List.replicate_succ, List.foldl_cons,
        show bumpCount x [(x, j)] = [(x, j + 1)] from by simp [bumpCount],
        ih (j + 1), show j + 1 + p = j + (p + 1) from by omega]

/-- The n-gram dict of a constant window list is a single entry. -/
theorem ngramCounts_replicate (m : ℕ) (x : List Byte) (hm : 0 < m) :
    ngramCounts (List.replicate m x) = [(x, m)] := by
  obtain ⟨p, rfl⟩ : ∃ p, m = p + 1 := ⟨m - 1, by omega⟩
  unfold ngramCounts
  rw [List.replicate_succ, List.foldl_cons,
    show bumpCount x [] = [(x, 1)] from rfl,
    foldl_bump_replicate p x 1, show 1 + p = p + 1 from by omega]

/-- The n-gram segment of a constant input: the single window count followed
by zero padding. -/
theorem ngramSegment_replicate (n k : ℕ) (b : Byte) (hn : n ≤ k)
    (hpos : 0 < k + 1 - n) :
    ngramSegment n (List.replicate k b)
      = ((k + 1 - n : ℕ) : ℚ) :: List.replicate 199 0 := by
  unfold ngramSegment
  rw [windows_replicate n k b hn, ngramCounts_replicate _ _ hpos]
  rfl

/-- Entropy of a constant input is zero (single probability bucket of 1). -/
theorem entropy_replicate (log2 : ℚ → ℚ) (k : ℕ) (b : Byte) (hk : 0 < k)
    (hlog : log2 1 = 0) : entropyOf log2 (List.replicate k b) = 0 := by
  unfold entropyOf
  rw [List.length_replicate, if_neg (by omega)]
  dsimp only
  rw [List.filter_map]
  have hfil : (List.finRange 256).filter
      ((fun c => decide (0 < c)) ∘ fun j => (List.replicate k b).count j)
      = (List.finRange 256).filter (fun j => decide (j = b)) := by
    apply List.filter_congr
    intro j _
    show decide (0 < (List.replicate k b).count j) = decide (j = b)
    rw [List.count_replicate]
    by_cases hj : j = b
    · rw [if_pos (by rw [hj]; exact beq_self_eq_true b),
        decide_eq_true (by omega : 0 < k), decide_eq_true hj]
    · rw [if_neg (by simp [Ne.symm hj]), decide_eq_false (by omega : ¬ 0 < 0),
        decide_eq_false hj]
  rw [hfil, List.filter_eq,
    List.count_eq_one_of_mem (List.nodup_finRange 256) (List.mem_finRange b),
    show List.replicate 1 b = [b] from rfl]
  simp only [List.map_cons, List.map_nil]
  rw [List.count_replicate, if_pos (beq_self_eq_true b),
    div_self (by exact_mod_cast Nat.pos_iff_ne_zero.1 hk : (k : ℚ) ≠ 0),
    one_mul, hlog]
  norm_num

/-- No byte string containing a byte other than `b` occurs in a constant-`b`
buffer. -/
theorem not_infix_replicate {s : List Byte} {b : Byte} {k : ℕ} {x : Byte}
    (hx : x ∈ s) (hne : x ≠ b) : ¬ s <:+: List.replicate k b := fun hinf =>
  hne (List.eq_of_mem_replicate (hinf.subset hx))

/-- Section features of 1000 'A' bytes: no PE marker, no suspicious API or
string hit, and code ratio 1 - 1000/1000 = 0. -/
theorem sectionFeatures_constA :
    sectionFeatures (List.replicate 1000 (65 : Byte)) = [0, 0, 0, 0] := by
  unfold sectionFeatures
  rw [List.length_replicate, if_neg (by norm_num)]
  dsimp only
  have htake : (List.replicate 1000 (65 : Byte)).take 1000
      = List.replicate 1000 (65 : Byte) := by
    rw [List.take_replicate, min_self]
  have hpe : pe_signatures.any
      (fun sig => decide (sig <:+: (List.replicate 1000 (65 : Byte)).take 1000))
      = false := by
    rw [htake, List.any_eq_false]
    intro sig hsig
    simp only [pe_signatures, List.mem_cons, List.not_mem_nil, or_false] at hsig
    rcases hsig with rfl | rfl
    · simp only [decide_eq_true_eq]
      exact not_infix_replicate (x := 77) (by decide) (by decide)
    · simp only [decide_eq_true_eq]
      exact not_infix_replicate (x := 80) (by decide) (by decide)
  have hapi : (suspicious_apis.filter
      (fun a => decide (a <:+: List.replicate 1000 (65 : Byte)))) = [] := by
    rw [List.filter_eq_nil_iff]
    intro a ha
    simp only [suspicious_apis, List.mem_cons, List.not_mem_nil, or_false] at ha
    rcases ha with rfl | rfl | rfl | rfl | rfl | rfl | rfl | rfl <;>
      simp only [decide_eq_true_eq]
    · exact not_infix_replicate (x := 67) (by decide) (by decide)
    · exact not_infix_replicate (x := 86) (by decide) (by decide)
    · exact not_infix_replicate (x := 87) (by decide) (by decide)
    · exact not_infix_replicate (x := 67) (by decide) (by decide)
    · exact not_infix_replicate (x := 76) (by decide) (by decide)
    · exact not_infix_replicate (x := 71) (by decide) (by decide)
    · exact not_infix_replicate (x := 87) (by decide) (by decide)
    · exact not_infix_replicate (x := 83) (by decide) (by decide)
  have hstr : (suspicious_strings.filter
      (fun s => decide (s <:+: List.replicate 1000 (65 : Byte)))) = [] := by
    rw [List.filter_eq_nil_iff]
    intro a ha
    simp only [suspicious_strings, List.mem_cons, List.not_mem_nil, or_false] at ha
    rcases ha with rfl | rfl | rfl | rfl | rfl | rfl | rfl | rfl <;>
      simp only [decide_eq_true_eq]
    · exact not_infix_replicate (x := 104) (by decide) (by decide)
    · exact not_infix_replicate (x := 104) (by decide) (by decide)
    · exact not_infix_replicate (x := 102) (by decide) (by decide)
    · exact not_infix_replicate (x := 92) (by decide) (by decide)
    · exact not_infix_replicate (x := 99) (by decide) (by decide)
    · exact not_infix_replicate (x := 112) (by decide) (by decide)
    · exact not_infix_replicate (x := 98) (by decide) (by decide)
    · exact not_infix_replicate (x := 115) (by decide) (by decide)
  have hpr : ((List.replicate 1000 (65 : Byte)).filter
      (fun b => decide (32 ≤ b.val ∧ b.val ≤ 126))) = List.replicate 1000 (65 : Byte) :=
    List.filter_replicate_of_pos (by decide)
  rw [hpe, hapi, hstr, hpr, List.length_replicate, List.length_nil,
    show suspicious_apis.length = 8 from rfl,
    show suspicious_strings.length = 8 from rfl]
  norm_num

/-- C2: evaluation of the pipeline on 1000 bytes of 0x41.  The claim's
extraction facts hold (entropy 0 at index 656, code ratio 0 at index 660), but
the heuristic classifier reads index 256 — the top bigram count 999 — as the
entropy, scores 0.3, and returns ("benign", 0.7) instead of the claimed score
0.0 with confidence 1.0. -/
theorem C2_constant_input (log2 : ℚ → ℚ) (hlog : log2 1 = 0) :
    (extract_features log2 (List.replicate 1000 (65 : Byte)))[656]? = some 0 ∧
    (extract_features log2 (List.replicate 1000 (65 : Byte)))[660]? = some 0 ∧
    heuristic_predict (extract_features log2 (List.replicate 1000 (65 : Byte)))
      = Except.ok ("benign", 7/10) := by
  have hseg : ngramSegment 2 (List.replicate 1000 (65 : Byte))
      = (999 : ℚ) :: List.replicate 199 0 := by
    rw [ngramSegment_replicate 2 1000 65 (by norm_num) (by norm_num)]
    norm_num
  refine ⟨?_, ?_, ?_⟩
  · rw [extract_getElem?_lt _ _ _ (by norm_num), raw_getElem?_656,
      entropy_replicate log2 1000 65 (by norm_num) hlog]
  · rw [extract_getElem?_lt _ _ _ (by norm_num), raw_getElem?_660,
      sectionFeatures_constA]
    rfl
  · have h256 : (extract_features log2 (List.replicate 1000 (65 : Byte)))[256]?
        = some (999 : ℚ) := by
      rw [extract_getElem?_lt _ _ _ (by norm_num), raw_getElem?_256, hseg]
      rfl
    have h257 : (extract_features log2 (List.replicate 1000 (65 : Byte)))[257]?
        = some (0 : ℚ) := by
      rw [extract_getElem?_lt _ _ _ (by norm_num), raw_getElem?_257, hseg]
      rfl
    have h259 : (extract_features log2 (List.replicate 1000 (65 : Byte)))[259]?
        = some (0 : ℚ) := by
      rw [extract_getElem?_lt _ _ _ (by norm_num), raw_getElem?_259, hseg]
      rfl
    rw [heuristic_predict_eq_core _ 999 0 0 h256 h257 h259]
    exact heuristicCore_high 999 (by norm_num)

theorem C2_constant_input_witness :
    (fun _ => (0 : ℚ)) 1 = 0 ∧
    heuristic_predict (extract_features (fun _ => 0) (List.replicate 1000 (65 : Byte)))
      = Except.ok ("benign", 7/10) :=
  ⟨rfl, (C2_constant_input (fun _ => 0) rfl).2.2⟩

/-- Unfolding equation of `dedupFirst` at nil. -/
theorem dedupFirst_nil : dedupFirst [] = [] := by rw [dedupFirst]

/-- Unfolding equation of `dedupFirst` at cons. -/
theorem dedupFirst_cons (x : List Byte) (xs : List (List Byte)) :
    dedupFirst (x :: xs) = x :: dedupFirst (xs.filter (fun y => y ≠ x)) := by
  rw [dedupFirst]

/-- `dedupFirst` keeps exactly the elements of the list. -/
theorem mem_dedupFirst : ∀ (l : List (List Byte)) (a : List Byte),
    a ∈ dedupFirst l ↔ a ∈ l := by
  intro l
  induction l using dedupFirst.induct with
  | case1 => intro a; rw [dedupFirst_nil]
  | case2 x xs ih =>
      intro a
      rw [dedupFirst_cons, List.mem_cons, List.mem_cons, ih]
      constructor
      · rintro (rfl | h)
        · exact Or.inl rfl
        · exact Or.inr (List.mem_of_mem_filter h)
      · rintro (rfl | h)
        · exact Or.inl rfl
        · by_cases hax : a = x
          · exact Or.inl hax
          · exact Or.inr (List.mem_filter.2 ⟨h, by simp [hax]⟩)

/-- First-occurrence offset of the head. -/
theorem firstOcc_cons_self (x : List Byte) (xs : List (List Byte)) :
    firstOcc x (x :: xs) = 0 := by
  show (if x = x then 0 else firstOcc x xs + 1) = 0
  rw [if_pos rfl]

/-- First-occurrence offset behind a different head. -/
theorem firstOcc_cons_ne (x k : List Byte) (xs : List (List Byte)) (h : x ≠ k) :
    firstOcc k (x :: xs) = firstOcc k xs + 1 := by
  show (if x = k then 0 else firstOcc k xs + 1) = firstOcc k xs + 1
  rw [if_neg h]

/-- Filtering preserves the relative order of first occurrences. -/
theorem firstOcc_filter_lt (p : List Byte → Bool) :
    ∀ (xs : List (List Byte)) (a b : List Byte), a ∈ xs.filter p → b ∈ xs.filter p →
      firstOcc a (xs.filter p) < firstOcc b (xs.filter p) →
      firstOcc a xs < firstOcc b xs := by
  intro xs
  induction xs with
  | nil => intro a b ha _ _; simp at ha
  | cons y ys ih =>
      intro a b ha hb h
      by_cases hp : p y
      · rw [List.filter_cons_of_pos hp] at ha hb h
        by_cases hyb : y = b
        · rw [← hyb, firstOcc_cons_self] at h
          omega
        · rw [firstOcc_cons_ne y b _ hyb] at h
          rw [firstOcc_cons_ne y b ys hyb]
          by_cases hya : y = a
          · rw [← hya, firstOcc_cons_self]
            omega
          · rw [firstOcc_cons_ne y a _ hya] at h
            rw [firstOcc_cons_ne y a ys hya]
            have ha2 : a ∈ ys.filter p := (List.mem_cons.1 ha).resolve_left (fun hh => hya hh.symm)
            have hb2 : b ∈ ys.filter p := (List.mem_cons.1 hb).resolve_left (fun hh => hyb hh.symm)
            have := ih a b ha2 hb2 (by omega)
            omega
      · rw [List.filter_cons_of_neg hp] at ha hb h
        have hpa : p a := (List.mem_filter.1 ha).2
        have hpb : p b := (List.mem_filter.1 hb).2
        have hya : y ≠ a := fun hh => hp (by rw [hh]; exact hpa)
        have hyb : y ≠ b := fun hh => hp (by rw [hh]; exact hpb)
        rw [firstOcc_cons_ne y a ys hya, firstOcc_cons_ne y b ys hyb]
        have := ih a b ha hb h
        omega

/-- The distinct keys, in first-occurrence order, have strictly increasing
first-occurrence offsets. -/
theorem pairwise_firstOcc_dedupFirst : ∀ l : List (List Byte),
    List.Pairwise (fun a b => firstOcc a l < firstOcc b l) (dedupFirst l) := by
  intro l
  induction l using dedupFirst.induct with
  | case1 => rw [dedupFirst_nil]; exact List.Pairwise.nil
  | case2 x xs ih =>
      rw [dedupFirst_cons, List.pairwise_cons]
      constructor
      · intro b hb
        have hbf : b ∈ xs.filter (fun y => decide (y ≠ x)) :=
          (mem_dedupFirst _ b).1 hb
        have hbx : b ≠ x := by
          have := (List.mem_filter.1 hbf).2
          simpa using this
        rw [firstOcc_cons_self, firstOcc_cons_ne x b xs (fun hh => hbx hh.symm)]
        omega
      · refine List.Pairwise.imp_of_mem ?_ ih
        intro a b ha hb hab
        have haf : a ∈ xs.filter (fun y => decide (y ≠ x)) := (mem_dedupFirst _ a).1 ha
        have hbf : b ∈ xs.filter (fun y => decide (y ≠ x)) := (mem_dedupFirst _ b).1 hb
        have hax : a ≠ x := by have := (List.mem_filter.1 haf).2; simpa using this
        have hbx : b ≠ x := by have := (List.mem_filter.1 hbf).2; simpa using this
        rw [firstOcc_cons_ne x a xs (fun hh => hax hh.symm),
          firstOcc_cons_ne x b xs (fun hh => hbx hh.symm)]
        have := firstOcc_filter_lt _ xs a b haf hbf hab
        omega

/-- Unfolding equation of `bumpCount` at cons. -/
theorem bumpCount_cons (ng k : List Byte) (c : ℕ) (rest : List (List Byte × ℕ)) :
    bumpCount ng ((k, c) :: rest)
      = if k = ng then (k, c + 1) :: rest else (k, c) :: bumpCount ng rest := rfl

/-- Bumping an absent key appends a fresh entry at the end. -/
theorem bumpCount_of_not_mem (x : List Byte) :
    ∀ acc : List (List Byte × ℕ), x ∉ acc.map Prod.fst →
      bumpCount x acc = acc ++ [(x, 1)] := by
  intro acc
  induction acc with
  | nil => intro _; rfl
  | cons p rest ih =>
      intro hx
      obtain ⟨k, c⟩ := p
      simp only [List.map_cons, List.mem_cons] at hx
      push_neg at hx
      rw [bumpCount_cons, if_neg (fun hh => hx.1 hh.symm), ih hx.2, List.cons_append]

/-- Bumping a present key increments exactly that entry (keys unique). -/
theorem bumpCount_of_mem (x : List Byte) :
    ∀ acc : List (List Byte × ℕ), (acc.map Prod.fst).Nodup → x ∈ acc.map Prod.fst →
      bumpCount x acc = acc.map (fun p => if p.1 = x then (p.1, p.2 + 1) else p) := by
  intro acc
  induction acc with
  | nil => intro _ hx; simp at hx
  | cons p rest ih =>
      intro hnd hx
      obtain ⟨k, c⟩ := p
      simp only [List.map_cons, List.nodup_cons] at hnd
      simp only [List.map_cons, List.mem_cons] at hx
      by_cases hk : k = x
      · subst hk
        rw [bumpCount_cons, if_pos rfl, List.map_cons]
        dsimp only
        rw [if_pos rfl]
        have hrest : ∀ q ∈ rest, (fun p : List Byte × ℕ =>
            if p.1 = k then (p.1, p.2 + 1) else p) q = id q := by
          intro q hq
          have hqk : q.1 ≠ k := fun hh => hnd.1 (hh ▸ List.mem_map_of_mem Prod.fst hq)
          simp [hqk]
        rw [List.map_congr_left hrest, List.map_id]
      · have hx2 : x ∈ rest.map Prod.fst := hx.resolve_left (fun hh => hk hh.symm)
        rw [bumpCount_cons, if_neg hk, ih hnd.2 hx2, List.map_cons]
        dsimp only
        rw [if_neg hk]

/-- Closed form of the n-gram dict fold: existing entries get the new counts
added; new keys are appended in first-occurrence order with their counts. -/
theorem foldl_bump_closed :
    ∀ (l : List (List Byte)) (acc : List (List Byte × ℕ)),
      (acc.map Prod.fst).Nodup →
      List.foldl (fun a ng => bumpCount ng a) acc l
        = acc.map (fun p => (p.1, p.2 + l.count p.1))
          ++ (dedupFirst (l.filter (fun k => decide (k ∉ acc.map Prod.fst)))).map
              (fun k => (k, l.count k)) := by
  intro l
  induction l with
  | nil =>
      intro acc _
      simp only [List.foldl_nil, List.count_nil, List.filter_nil, dedupFirst_nil,
        List.map_nil, List.append_nil, Nat.add_zero]
      rw [show (fun p : List Byte × ℕ => (p.1, p.2)) = id from funext (fun p => rfl),
        List.map_id]
  | cons x xs ih =>
      intro acc hnd
      rw [List.foldl_cons]
      by_cases hx : x ∈ acc.map Prod.fst
      · rw [bumpCount_of_mem x acc hnd hx]
        have hkeys : ((acc.map (fun p => if p.1 = x then (p.1, p.2 + 1) else p)).map
            Prod.fst) = acc.map Prod.fst := by
          rw [List.map_map]
          apply List.map_congr_left
          intro p _
          by_cases hp : p.1 = x <;> simp [hp]
        rw [ih _ (by rw [hkeys]; exact hnd), hkeys]
        congr 1
        · rw [List.map_map]
          apply List.map_congr_left
          intro p hp
          by_cases hpx : p.1 = x
          · simp only [Function.comp, hpx, if_true, List.count_cons_self,
              Prod.mk.injEq]
            exact ⟨trivial, by omega⟩
          · simp only [Function.comp, if_neg hpx, List.count_cons_of_ne hpx]
        · rw [List.filter_cons_of_neg (by simp [hx])]
          apply List.map_congr_left
          intro k hk
          have hkf : k ∈ xs.filter (fun k => decide (k ∉ acc.map Prod.fst)) :=
            (mem_dedupFirst _ k).1 hk
          have hknm : k ∉ acc.map Prod.fst := by
            have := (List.mem_filter.1 hkf).2
            simpa using this
          have hkx : k ≠ x := fun hh => hknm (hh ▸ hx)
          rw [List.count_cons_of_ne hkx]
      · rw [bumpCount_of_not_mem x acc hx]
        have hkeys2 : (acc ++ [(x, 1)]).map Prod.fst = acc.map Prod.fst ++ [x] := by
          rw [List.map_append]
          rfl
        have hnd2 : ((acc ++ [(x, 1)]).map Prod.fst).Nodup := by
          rw [hkeys2, List.nodup_append]
          exact ⟨hnd, List.nodup_singleton x, by
            intro a ha hax
            rw [List.mem_singleton] at hax
            exact hx (hax ▸ ha)⟩
        rw [ih _ hnd2, hkeys2, List.map_append]
        have hfil2 : xs.filter (fun k => decide (k ∉ acc.map Prod.fst ++ [x]))
            = (xs.filter (fun k => decide (k ∉ acc.map Prod.fst))).filter
                (fun y => decide (y ≠ x)) := by
          rw [List.filter_filter]
          apply List.filter_congr
          intro k _
          by_cases h1 : k ∈ acc.map Prod.fst <;> by_cases h2 : k = x <;>
            simp [h1, h2]
        have hfilx : (x :: xs).filter (fun k => decide (k ∉ acc.map Prod.fst))
            = x :: xs.filter (fun k => decide (k ∉ acc.map Prod.fst)) :=
          List.filter_cons_of_pos (by simpa using hx)
        rw [hfilx, dedupFirst_cons, List.map_cons, ← hfil2]
        simp only [List.map_cons, List.map_nil, List.append_assoc,
          List.singleton_append, List.cons_append, List.nil_append]
        congr 1
        · apply List.map_congr_left
          intro p hp
          have hpx : p.1 ≠ x := fun hh => hx (hh ▸ List.mem_map_of_mem Prod.fst hp)
          simp only [List.count_cons_of_ne hpx]
        · congr 1
          · simp only [List.count_cons_self, Prod.mk.injEq, true_and]
            omega
          · apply List.map_congr_left
            intro k hk
            have hkf := (mem_dedupFirst _ k).1 hk
            have hkx : k ≠ x := by
              have hh := (List.mem_filter.1 hkf).2
              simp only [List.mem_append, List.mem_singleton,
                decide_eq_true_eq] at hh
              push_neg at hh
              exact hh.2
            rw [List.count_cons_of_ne hkx]

/-- The n-gram dict equals the distinct windows in first-occurrence order,
each paired with its total occurrence count. -/
theorem ngramCounts_eq (l : List (List Byte)) :
    ngramCounts l = (dedupFirst l).map (fun k => (k, l.count k)) := by
  unfold ngramCounts
  rw [foldl_bump_closed l [] (by simp)]
  have hfl : l.filter (fun k => decide (k ∉ (([] : List (List Byte × ℕ)).map
      Prod.fst))) = l := by
    rw [show (fun k : List Byte => decide (k ∉ (([] : List (List Byte × ℕ)).map
        Prod.fst))) = fun _ => true from funext (fun k => by simp),
      List.filter_true]
  rw [hfl]
  simp only [List.map_nil, List.nil_append]

/-- Unfolding equation of the descending insertion at cons. -/
theorem insertByCountDesc_cons (x y : List Byte × ℕ) (ys : List (List Byte × ℕ)) :
    insertByCountDesc x (y :: ys)
      = if y.2 ≤ x.2 then x :: y :: ys else y :: insertByCountDesc x ys := rfl

/-- Unfolding equation of the descending sort at cons. -/
theorem sortByCountDesc_cons (x : List Byte × ℕ) (xs : List (List Byte × ℕ)) :
    sortByCountDesc (x :: xs) = insertByCountDesc x (sortByCountDesc xs) := rfl

/-- Unfolding equation of the two-key insertion at cons. -/
theorem specInsert_cons (ws : List (List Byte)) (x y : List Byte × ℕ)
    (ys : List (List Byte × ℕ)) :
    specInsert ws x (y :: ys)
      = if y.2 < x.2 ∨ (y.2 = x.2 ∧ firstOcc x.1 ws < firstOcc y.1 ws) then
          x :: y :: ys
        else y :: specInsert ws x ys := rfl

/-- Unfolding equation of the two-key sort at cons. -/
theorem specSort_cons (ws : List (List Byte)) (x : List Byte × ℕ)
    (xs : List (List Byte × ℕ)) :
    specSort ws (x :: xs) = specInsert ws x (specSort ws xs) := rfl

/-- Membership through the two-key insertion. -/
theorem mem_specInsert (ws : List (List Byte)) (x a : List Byte × ℕ) :
    ∀ L, a ∈ specInsert ws x L ↔ a = x ∨ a ∈ L := by
  intro L
  induction L with
  | nil =>
      rw [show specInsert ws x [] = [x] from rfl]
      simp
  | cons y ys ih =>
      rw [specInsert_cons]
      split
      · simp [List.mem_cons]
      · rw [List.mem_cons, ih, List.mem_cons]
        tauto

/-- Membership through the two-key sort. -/
theorem mem_specSort (ws : List (List Byte)) (a : List Byte × ℕ) :
    ∀ l, a ∈ specSort ws l ↔ a ∈ l := by
  intro l
  induction l with
  | nil => rfl
  | cons x xs ih =>
      rw [specSort_cons, mem_specInsert, ih, List.mem_cons]

/-- On a list whose first-occurrence offsets all exceed the inserted key's,
the stable descending insertion coincides with the two-key insertion. -/
theorem insertDesc_eq_specInsert (ws : List (List Byte)) (x : List Byte × ℕ) :
    ∀ L, (∀ y ∈ L, firstOcc x.1 ws < firstOcc y.1 ws) →
      insertByCountDesc x L = specInsert ws x L := by
  intro L
  induction L with
  | nil => intro _; rfl
  | cons y ys ih =>
      intro h
      have hxy := h y (List.mem_cons_self y ys)
      by_cases hle : y.2 ≤ x.2
      · have hcond : y.2 < x.2 ∨ (y.2 = x.2 ∧ firstOcc x.1 ws < firstOcc y.1 ws) := by
          rcases Nat.lt_or_ge y.2 x.2 with hlt | hge
          · exact Or.inl hlt
          · exact Or.inr ⟨by omega, hxy⟩
        rw [insertByCountDesc_cons, specInsert_cons, if_pos hle, if_pos hcond]
      · have hcond : ¬ (y.2 < x.2 ∨ (y.2 = x.2 ∧ firstOcc x.1 ws < firstOcc y.1 ws)) := by
          rintro (hlt | ⟨heq, _⟩) <;> exact hle (by omega)
        rw [insertByCountDesc_cons, specInsert_cons, if_neg hle, if_neg hcond,
          ih (fun z hz => h z (List.mem_cons_of_mem y hz))]

/-- On a list sorted by first-occurrence offset (as the dict's key list is),
Python's stable descending sort by count coincides with the sort by the
explicit (count descending, first-occurrence ascending) key. -/
theorem sortDesc_eq_specSort (ws : List (List Byte)) :
    ∀ l, List.Pairwise (fun p q : List Byte × ℕ =>
        firstOcc p.1 ws < firstOcc q.1 ws) l →
      sortByCountDesc l = specSort ws l := by
  intro l
  induction l with
  | nil => intro _; rfl
  | cons x xs ih =>
      intro h
      rw [List.pairwise_cons] at h
      rw [sortByCountDesc_cons, specSort_cons, ih h.2]
      apply insertDesc_eq_specInsert
      intro y hy
      exact h.1 y ((mem_specSort ws y xs).1 hy)

/-- C6: for n ∈ {2, 3}, the n-gram segment computed by the source (dict
accumulation in first-occurrence order followed by Python's stable descending
sort, take 200, zero-pad) equals the specification's description: count the
distinct n-byte windows, sort by count descending with ties broken by
first-occurrence offset ascending, take the first 200 counts, zero-pad; in
particular the segment is deterministic for identical input. -/
theorem C6_ngram_segment (n : ℕ) (data : List Byte) (hn : n = 2 ∨ n = 3) :
    ngramSegment n data = specNgramSegment n data := by
  have hpw : List.Pairwise (fun p q : List Byte × ℕ =>
      firstOcc p.1 (windows n data) < firstOcc q.1 (windows n data))
      ((dedupFirst (windows n data)).map
        (fun k => (k, (windows n data).count k))) := by
    rw [List.pairwise_map]
    exact pairwise_firstOcc_dedupFirst (windows n data)
  unfold ngramSegment specNgramSegment
  rw [ngramCounts_eq, sortDesc_eq_specSort (windows n data) _ hpw]

theorem C6_ngram_segment_witness :
    ((2 : ℕ) = 2 ∨ (2 : ℕ) = 3) ∧
      ngramSegment 2 ([0, 1, 0] : List Byte) = specNgramSegment 2 ([0, 1, 0] : List Byte) :=
  ⟨Or.inl rfl, C6_ngram_segment 2 ([0, 1, 0] : List Byte) (Or.inl rfl)⟩

end Cybershield
